import Mathlib

/-!
Shallow embedding of the `ghttp` HTTP client (Go) and verification of the
frozen claims about its request execution engine.

Source layout:
- `options.go`: content-type constants, `Event`, `Hook`/`Hooks`, `Options`.
- `unnamed/part_000`: the `Backoff` interface and `ConstantBackoff`.
- `unnamed/part_001`: `Client.DoRequest` (the execution loop), `isTimeoutErr`,
  `StatusErr`.
- `unnamed/part_002`: `encode`/`toUrlValue`, `decode`/`parseUrlValue`,
  `parseContentType`.

Machine integers: the only integer data are status codes, lengths and the
retry counter; none of them is ever near an overflow boundary in the
modelled behavior, so they are embedded as `Nat`/`Int` directly.  The spec
fixes the retry budget to an integer greater than or equal to zero, so
`Options.Retry` is a `Nat`.

Go standard-library collaborators (`path.Join`, `net/url` escaping and
query parsing, `encoding/json` marshalling) are not repository code; they
are modelled here at the level of behavior the repository relies on, each
with a doc comment saying so.
-/

namespace Ghttp

/-- Go `time.Duration`, in nanoseconds. -/
abbrev Duration := Nat

/-- The error values that can flow through the engine.  `netErr` stands for
an error implementing Go `net.Error`, carrying the result of its
`Timeout()` method; `statusErr` embeds the repository type `StatusErr`
(part_001 lines 166-169); `noData`, `notSupport` and `invalidType` are the
package-level sentinel errors (part_001 lines 16-20); `hookErr` is an error
returned by a user hook; `ctxErr` is a context error (`context.Canceled` or
a deadline error) as returned by `ctx.Err()`; `escapeErr` stands for a
`net/url` parse error from `url.ParseQuery`; `otherErr` is any other
non-`net.Error` error. -/
inductive GError where
  | netErr (msg : String) (timeout : Bool)
  | statusErr (code : Nat) (info : String)
  | noData
  | notSupport
  | invalidType
  | hookErr (msg : String)
  | ctxErr (msg : String)
  | escapeErr (msg : String)
  | otherErr (msg : String)
deriving DecidableEq, Repr

/-- `isTimeoutErr` (part_001 lines 157-163): true exactly when the error is
a `net.Error` whose `Timeout()` reports true. -/
def isTimeoutErr : GError → Bool
  | .netErr _ t => t
  | _ => false

/-- `IsStatusErr` (part_001 lines 176-179). -/
def IsStatusErr : GError → Bool
  | .statusErr _ _ => true
  | _ => false

/-- Outcome of running a piece of Go code: a value, a returned error, or a
runtime panic. -/
inductive GoResult (α : Type) where
  | ok (val : α)
  | err (e : GError)
  | panicked (msg : String)
deriving DecidableEq, Repr

/-- The content-type constants of `options.go` lines 10-16. -/
def TypeJSON : String := "application/json"

def TypeXML : String := "application/xml"

def TypeForm : String := "application/x-www-form-urlencoded"

def TypeHTML : String := "text/html"

def TypeText : String := "text/plain"

/-- `http.StatusOK`. -/
def StatusOK : Nat := 200

/-- The part of a Go `http.Response` the engine reads: the status code, the
status line text (`rsp.Status`), the result of `rsp.Header.Get
("Content-Type")` (the empty string when the header is absent, as in Go),
and the body bytes. -/
structure Response where
  statusCode : Nat
  status : String
  contentTypeHeader : String
  body : String
deriving DecidableEq, Repr

/-- The part of a Go `http.Request` the hooks can observe in this model. -/
structure RequestM where
  method : String
  url : String
deriving DecidableEq, Repr

/-- `EventType` (options.go lines 35-40): `EventPrev = 0`, `EventPost = 1`. -/
inductive EventType where
  | prev
  | post
deriving DecidableEq, Repr

/-- `Event` (options.go lines 42-49): one pass through the loop, shared by
reference across all attempts of one logical call. -/
structure Event where
  typ : EventType
  req : RequestM
  rsp : Option Response
  err : Option GError
  num : Nat
  datas : List (String × String)
deriving DecidableEq, Repr

/-- `Event.SetPrev` (options.go lines 51-54): overwrites only `Type` and
`Num`. -/
def Event.SetPrev (ev : Event) (num : Nat) : Event :=
  { ev with typ := .prev, num := num }

/-- `Event.SetPost` (options.go lines 56-60): overwrites `Type`, `Rsp` and
`Err`. -/
def Event.SetPost (ev : Event) (rsp : Option Response) (err : Option GError) : Event :=
  { ev with typ := .post, rsp := rsp, err := err }

/-- A `Hook` (options.go line 62): observes the shared event and may return
an error.  Mutation of the request by hooks is not needed by any claim, so
hooks are modelled as observers. -/
abbrev Hook := Event → Option GError

/-- The `Hooks` slice (options.go line 63). -/
abbrev Hooks := List Hook

/-- `Hooks.Run` (options.go lines 65-73): run the hooks in order; the first
hook returning a non-nil error stops the iteration and that error is
returned. -/
def Hooks.Run : Hooks → Event → Option GError
  | [], _ => none
  | h :: rest, ev =>
    match h ev with
    | some e => some e
    | none => Hooks.Run rest ev

/-- The `Backoff` interface (part_000 lines 5-8), viewed through its only
use in the engine: `next j` is the duration returned by the `(j+1)`-st call
to `Next()` on the policy instance during one logical call. -/
structure BackoffM where
  next : Nat → Duration

/-- `ConstantBackoff` (part_000 lines 10-19). -/
structure ConstantBackoff where
  interval : Duration
deriving DecidableEq, Repr

/-- `ConstantBackoff.Next` returns the fixed interval. -/
def ConstantBackoff.Next (b : ConstantBackoff) : Duration := b.interval

/-- `ConstantBackoff.Reset` is a no-op. -/
def ConstantBackoff.Reset (b : ConstantBackoff) : ConstantBackoff := b

/-- `NewConstantBackoff` (part_000 lines 21-23). -/
def NewConstantBackoff (d : Duration) : ConstantBackoff := ⟨d⟩

/-- A `ConstantBackoff` as a `BackoffM`: every call to `Next` returns the
interval. -/
def ConstantBackoff.toBackoffM (b : ConstantBackoff) : BackoffM :=
  ⟨fun _ => b.Next⟩

/-- Whether `p` is a prefix of `s`, character-wise: Go
`strings.HasPrefix (s, p)` on character lists. -/
def charListHasPre : List Char → List Char → Bool
  | [], _ => true
  | _ :: _, [] => false
  | p :: ps, c :: cs => if p = c then charListHasPre ps cs else false

/-- Go `strings.HasPrefix` on strings. -/
def strStartsWith (s p : String) : Bool :=
  charListHasPre p.data s.data

/-- Split a character list on a separator character, keeping empty parts,
as Go `strings.Split` does for a one-character separator.  The accumulator
holds the current part reversed. -/
def splitOnCharAux (sep : Char) : List Char → List Char → List (List Char)
  | [], cur => [cur.reverse]
  | c :: cs, cur =>
    if c = sep then cur.reverse :: splitOnCharAux sep cs []
    else splitOnCharAux sep cs (c :: cur)

/-- Split a character list on a separator character. -/
def splitOnChar (sep : Char) (s : List Char) : List (List Char) :=
  splitOnCharAux sep s []

/-- Join character-list parts with a separator. -/
def joinChars (sep : List Char) : List (List Char) → List Char
  | [] => []
  | [x] => x
  | x :: xs => x ++ sep ++ joinChars sep xs

/-- Byte-wise (here: character-wise, ASCII view) lexicographic order on
character lists, as Go `sort.Strings` orders keys. -/
def lexLe : List Char → List Char → Bool
  | [], _ => true
  | _ :: _, [] => false
  | a :: as, b :: bs => if a = b then lexLe as bs else a.toNat ≤ b.toNat

/-- Go `strings.LastIndexByte`, on the character list of a string: the
index of the last occurrence of `c`, or `none` when absent. -/
def lastIndexByte : List Char → Char → Option Nat
  | [], _ => none
  | x :: xs, c =>
    match lastIndexByte xs c with
    | some i => some (i + 1)
    | none => if x = c then some 0 else none

/-- `parseContentType` (part_002 lines 189-196) on character lists:
`idx := strings.LastIndexByte(content, ";")`; when present the content is
truncated at that index, otherwise returned whole. -/
def parseContentTypeList (content : List Char) : List Char :=
  match lastIndexByte content ';' with
  | none => content
  | some idx => content.take idx

/-- `parseContentType` (part_002 lines 189-196). -/
def parseContentType (content : String) : String :=
  ⟨parseContentTypeList content.data⟩

/-- The content-type resolution of `DoRequest` (part_001 lines 122-125):
the response `Content-Type` header, when non-empty, wins after
`parseContentType`; otherwise the content type configured for the request
is used. -/
def resolveContentType (cfgType : String) (headerVal : String) : String :=
  if headerVal.length ≠ 0 then parseContentType headerVal else cfgType

/-- The universe of Go `interface` values that can reach the codec in
this model: booleans, ints, strings, byte slices, generic slices, and the
three mapping shapes accepted by `toUrlValue`. -/
inductive GoVal where
  | vBool (b : Bool)
  | vInt (n : Int)
  | vStr (s : String)
  | vBytes (s : String)
  | vSlice (elems : List GoVal)
  | vMapStr (m : List (String × String))
  | vMapAny (m : List (String × GoVal))
  | vUrlValues (m : List (String × List String))
deriving Repr

/-- Go `reflect.Kind` numeric code of each `GoVal` shape, as used by the
comparison `kind <= reflect.Float64` in `toUrlValue` (part_002 line 94).
In Go: `Bool = 1`, `Int = 2`, `Float64 = 14`, `Map = 21`, `Slice = 23`,
`String = 24`. -/
def GoVal.kind : GoVal → Nat
  | .vBool _ => 1
  | .vInt _ => 2
  | .vStr _ => 24
  | .vBytes _ => 23
  | .vSlice _ => 23
  | .vMapStr _ => 21
  | .vMapAny _ => 21
  | .vUrlValues _ => 21

mutual

/-- Go `fmt.Sprintf` with verb `%+v` on the modelled values.  Byte slices
print as their bracketed byte values; that case is unreachable from
`encode`, which passes `[]byte` through before any formatting.  Go prints
map entries in unspecified order; the model uses the list order. -/
def GoVal.sprintf : GoVal → String
  | .vBool b => if b then "true" else "false"
  | .vInt n => toString n
  | .vStr s => s
  | .vBytes s =>
    "[" ++ String.intercalate " " (s.data.map (fun c => toString c.toNat)) ++ "]"
  | .vSlice es => "[" ++ String.intercalate " " (sprintfList es) ++ "]"
  | .vMapStr m =>
    "map[" ++ String.intercalate " " (m.map (fun p => p.1 ++ ":" ++ p.2)) ++ "]"
  | .vMapAny m =>
    "map[" ++ String.intercalate " " (sprintfPairs m) ++ "]"
  | .vUrlValues m =>
    "map[" ++ String.intercalate " "
      (m.map (fun p => p.1 ++ ":[" ++ String.intercalate " " p.2 ++ "]")) ++ "]"

/-- `GoVal.sprintf` over a slice of values. -/
def sprintfList : List GoVal → List String
  | [] => []
  | v :: vs => GoVal.sprintf v :: sprintfList vs

/-- `GoVal.sprintf` over map entries, formatted `key:value`. -/
def sprintfPairs : List (String × GoVal) → List String
  | [] => []
  | (k, v) :: ps => (k ++ ":" ++ GoVal.sprintf v) :: sprintfPairs ps

end

/-- Go `url.Values`: a mapping from keys to ordered value slices.  Go
iterates such a map in unspecified order; the model fixes the entry order
as the list order, which no claim depends on.  The value slice order is
the append order, exactly as in Go. -/
abbrev UrlValues := List (String × List String)

/-- `url.Values.Add` (Go standard library): append `v` to the slice of
key `k`, creating the key at the end when absent. -/
def UrlValues.add : UrlValues → String → String → UrlValues
  | [], k, v => [(k, [v])]
  | (k1, ws) :: rest, k, v =>
    if k1 = k then (k1, ws ++ [v]) :: rest else (k1, ws) :: UrlValues.add rest k v

/-- One hexadecimal digit, upper case, as used by Go `net/url` escaping. -/
def hexDigitU (n : Nat) : Char :=
  if n < 10 then Char.ofNat (48 + n) else Char.ofNat (55 + n)

/-- Go `url.QueryEscape` on one character (ASCII view; multi-byte UTF-8
expansion is abstracted, no claim exercises it): alphanumerics and
`-._~` survive, space becomes `+`, the rest becomes `%XX`. -/
def queryEscapeChar (c : Char) : String :=
  if c.isAlphanum ∨ c = '-' ∨ c = '_' ∨ c = '.' ∨ c = '~' then String.singleton c
  else if c = ' ' then "+"
  else "%" ++ String.singleton (hexDigitU (c.toNat / 16)) ++ String.singleton (hexDigitU (c.toNat % 16))

/-- Go `url.QueryEscape`. -/
def queryEscape (s : String) : String :=
  String.join (s.data.map queryEscapeChar)

/-- Insertion into a list sorted by a string key, used to model the
key-sorting Go performs in `url.Values.Encode` and `json.Marshal` of maps. -/
def insertSortedBy {α : Type} (key : α → String) (x : α) : List α → List α
  | [] => [x]
  | y :: ys =>
    if lexLe (key x).data (key y).data then x :: y :: ys else y :: insertSortedBy key x ys

/-- Sort a list by a string key (insertion sort). -/
def sortBy {α : Type} (key : α → String) : List α → List α
  | [] => []
  | x :: xs => insertSortedBy key x (sortBy key xs)

/-- Go `url.Values.Encode`: keys sorted, each value escaped, pairs joined
with `&`. -/
def UrlValues.encodeQ (vs : UrlValues) : String :=
  String.intercalate "&"
    ((sortBy (fun p => p.1) vs).flatMap
      (fun p => p.2.map (fun v => queryEscape p.1 ++ "=" ++ queryEscape v)))

/-- JSON string quoting as performed by Go `encoding/json` (control-char
escapes beyond quote and backslash abstracted; no claim exercises them). -/
def jsonQuote (s : String) : String :=
  "\"" ++ String.join (s.data.map (fun c =>
    if c = '"' then "\\\"" else if c = '\\' then "\\\\" else String.singleton c)) ++ "\""

mutual

/-- Go `json.Marshal` on the modelled values (standard library, not
repository code; map keys are sorted as Go does, here by marshalling the
entries first and sorting the results by key, which yields the same
string).  `[]byte` would be base64-coded by Go; that case is unreachable
from `encode`, which passes `[]byte` through before the JSON branch. -/
def jsonMarshal : GoVal → String
  | .vBool b => if b then "true" else "false"
  | .vInt n => toString n
  | .vStr s => jsonQuote s
  | .vBytes s => jsonQuote s
  | .vSlice es => "[" ++ String.intercalate "," (jsonMarshalList es) ++ "]"
  | .vMapStr m =>
    "\x7b" ++ String.intercalate ","
      ((sortBy (fun p => p.1) m).map (fun p => jsonQuote p.1 ++ ":" ++ jsonQuote p.2)) ++ "\x7d"
  | .vMapAny m =>
    "\x7b" ++ String.intercalate ","
      ((sortBy (fun p => p.1) (jsonMarshalPairs m)).map
        (fun p => jsonQuote p.1 ++ ":" ++ p.2)) ++ "\x7d"
  | .vUrlValues m =>
    "\x7b" ++ String.intercalate ","
      ((sortBy (fun p => p.1) m).map (fun p =>
        jsonQuote p.1 ++ ":[" ++ String.intercalate "," (p.2.map jsonQuote) ++ "]")) ++ "\x7d"

/-- `jsonMarshal` over a slice of values. -/
def jsonMarshalList : List GoVal → List String
  | [] => []
  | v :: vs => jsonMarshal v :: jsonMarshalList vs

/-- `jsonMarshal` over map entries, keeping the key for sorting. -/
def jsonMarshalPairs : List (String × GoVal) → List (String × String)
  | [] => []
  | (k, v) :: ps => (k, jsonMarshal v) :: jsonMarshalPairs ps

end

mutual

/-- Go `xml.Marshal` on the modelled values (standard library, not
repository code): primitives serialize to a typed element, slices to the
concatenation of their elements, and map shapes are unsupported, as in Go.
No claim exercises this branch. -/
def xmlMarshal : GoVal → GoResult String
  | .vBool b => .ok ("<bool>" ++ (if b then "true" else "false") ++ "</bool>")
  | .vInt n => .ok ("<int>" ++ toString n ++ "</int>")
  | .vStr s => .ok ("<string>" ++ s ++ "</string>")
  | .vBytes s => .ok ("<bytes>" ++ s ++ "</bytes>")
  | .vSlice es => xmlMarshalList es
  | .vMapStr _ => .err .notSupport
  | .vMapAny _ => .err .notSupport
  | .vUrlValues _ => .err .notSupport

/-- `xmlMarshal` over a slice of values, concatenating the elements and
propagating the first failure. -/
def xmlMarshalList : List GoVal → GoResult String
  | [] => .ok ""
  | v :: vs =>
    match xmlMarshal v with
    | .ok s =>
      match xmlMarshalList vs with
      | .ok t => .ok (s ++ t)
      | .err e => .err e
      | .panicked m => .panicked m
    | .err e => .err e
    | .panicked m => .panicked m

end

/-- The panic raised by Go `reflect.Value.Field` when the receiver is not a
struct, as happens in `toUrlValue` (part_002 line 99), where `vv` is a
slice value. -/
def reflectFieldPanicMsg : String := "reflect: call of reflect.Value.Field on slice Value"

/-- Length of a Go slice value, for `vv.Len()` at part_002 line 98. -/
def goSliceLen : GoVal → Nat
  | .vSlice es => es.length
  | .vBytes s => s.length
  | _ => 0

/-- The inner loop of `toUrlValue` (part_002 lines 97-101):
`for i := 0; i < vv.Len(); i++`, body `f := vv.Field(i); r.Add(k, ...)`.
`vv` is a slice value, so the first call to `vv.Field(i)` panics
(`reflect.Value.Field` only accepts structs; `Index` was intended);
when the slice is empty the loop body never runs. -/
def sliceFieldLoop (r : UrlValues) (_k : String) (v : GoVal) (i : Nat) : GoResult UrlValues :=
  if i < goSliceLen v then .panicked reflectFieldPanicMsg else .ok r


/-- The `map[string]interface` case of `toUrlValue` (part_002 lines
90-106): for each entry, a value of kind at most `reflect.Float64` (14) is
formatted and added; a value of slice kind (23) enters the `vv.Field`
loop; any other kind returns `ErrNotSupport`. -/
def toUrlValueAny (r : UrlValues) : List (String × GoVal) → GoResult UrlValues
  | [] => .ok r
  | (k, v) :: rest =>
    if v.kind ≤ 14 then toUrlValueAny (r.add k v.sprintf) rest
    else if v.kind = 23 then
      match sliceFieldLoop r k v 0 with
      | .ok r1 => toUrlValueAny r1 rest
      | .err e => .err e
      | .panicked m => .panicked m
    else .err .notSupport

/-- `toUrlValue` (part_002 lines 80-110): `url.Values` passes through, a
`map[string]string` is added entry-wise, a `map[string]interface` goes
through the kind dispatch, and anything else returns `ErrNotSupport`. -/
def toUrlValue : GoVal → GoResult UrlValues
  | .vUrlValues m => .ok m
  | .vMapStr m => .ok (m.foldl (fun r p => r.add p.1 p.2) [])
  | .vMapAny m => toUrlValueAny [] m
  | _ => .err .notSupport

/-- `encode` (part_002 lines 48-78): nil data encodes to no bytes; strings
and byte slices pass through unchanged; otherwise the content type
dispatches to JSON, XML or form serialization; text and HTML reject
structured input with `ErrInvalidType`; anything else is `ErrNotSupport`. -/
def encode (contentType : String) (data : Option GoVal) : GoResult (Option String) :=
  match data with
  | none => .ok none
  | some d =>
    match d with
    | .vStr s => .ok (some s)
    | .vBytes s => .ok (some s)
    | _ =>
      if contentType = TypeJSON then .ok (some (jsonMarshal d))
      else if contentType = TypeXML then
        match xmlMarshal d with
        | .ok s => .ok (some s)
        | .err e => .err e
        | .panicked m => .panicked m
      else if contentType = TypeForm then
        match toUrlValue d with
        | .ok uv => .ok (some uv.encodeQ)
        | .err e => .err e
        | .panicked m => .panicked m
      else if contentType = TypeHTML ∨ contentType = TypeText then .err .invalidType
      else .err .notSupport

/-- Value of a hexadecimal digit character, or `none`. -/
def hexVal (c : Char) : Option Nat :=
  if '0' ≤ c ∧ c ≤ '9' then some (c.toNat - 48)
  else if 'a' ≤ c ∧ c ≤ 'f' then some (c.toNat - 87)
  else if 'A' ≤ c ∧ c ≤ 'F' then some (c.toNat - 55)
  else none

/-- Go `url.QueryUnescape` (standard library, not repository code): `+`
becomes space, `%XX` becomes the coded byte, a malformed escape is an
error (`none`).  Multi-byte UTF-8 recombination is abstracted; no claim
exercises it. -/
def unescapeChars : List Char → Option (List Char)
  | [] => some []
  | '%' :: a :: b :: rest =>
    match hexVal a, hexVal b with
    | some ha, some hb => (unescapeChars rest).map (fun t => Char.ofNat (16 * ha + hb) :: t)
    | _, _ => none
  | '%' :: _ => none
  | '+' :: rest => (unescapeChars rest).map (fun t => ' ' :: t)
  | c :: rest => (unescapeChars rest).map (fun t => c :: t)

/-- Go `url.QueryUnescape` on strings. -/
def queryUnescape (s : String) : Option String :=
  (unescapeChars s.data).map (fun l => ⟨l⟩)

/-- One `key=value` segment of Go `url.ParseQuery` (standard library, not
repository code): an empty segment is skipped, one containing a semicolon
records an error and is skipped, the key is everything before the first
`=` (the value empty when there is none), and both sides are unescaped; an
escape failure records an error and skips the pair.  The accumulator
carries the values map and whether an error was recorded. -/
def parseQuerySeg (acc : UrlValues × Bool) (seg : List Char) : UrlValues × Bool :=
  if seg = [] then acc
  else if seg.any (fun c => c = ';') then (acc.1, true)
  else
    let key := seg.takeWhile (fun c => c ≠ '=')
    let value := seg.drop (key.length + 1)
    match unescapeChars key, unescapeChars value with
    | some k, some v => (acc.1.add ⟨k⟩ ⟨v⟩, acc.2)
    | _, _ => (acc.1, true)

/-- Go `url.ParseQuery` (standard library, not repository code): split on
`&`, parse each segment, and return the map; when any segment recorded an
error, `decode` only looks at the non-nil error, so the model returns the
error alone. -/
def parseQuery (s : String) : GoResult UrlValues :=
  let r := (splitOnChar '&' s.data).foldl parseQuerySeg ([], false)
  if r.2 then .err (.escapeErr "url: invalid query") else .ok r.1

/-- The destination shapes distinguished by the type switch of
`parseUrlValue` (part_002 lines 154-187). -/
inductive FormDest where
  | ptrUrlValues
  | urlValues
  | ptrMapString
  | ptrMapAny
  | mapString
  | mapAny
  | other
deriving DecidableEq, Repr

/-- What `parseUrlValue` does to its destination: assign the whole values
map through a pointer, merge all value slices into a caller-supplied map,
build a fresh first-value map and assign it through a pointer, or write
first values into a caller-supplied map. -/
inductive FormOut where
  | raw (vs : UrlValues)
  | mergedAll (writes : UrlValues)
  | firstsNew (m : List (String × String))
  | firstsMerged (writes : List (String × String))
deriving DecidableEq, Repr

/-- The `v[0]` projection of `parseUrlValue`: Go indexing panics on an
empty slice (never produced by `url.ParseQuery`, which always appends at
least one value per key). -/
def firstsOf : UrlValues → GoResult (List (String × String))
  | [] => .ok []
  | (k, vs) :: rest =>
    match vs with
    | [] => .panicked "runtime error: index out of range [0] with length 0"
    | v0 :: _ =>
      match firstsOf rest with
      | .ok m => .ok ((k, v0) :: m)
      | .err e => .err e
      | .panicked msg => .panicked msg

/-- `parseUrlValue` (part_002 lines 154-187): `*url.Values` receives the
whole map; `url.Values` receives every value slice; the four map shapes
receive `v[0]` per key — the first value, later values dropped; any other
destination returns `ErrNotSupport`. -/
def parseUrlValue (values : UrlValues) (dest : FormDest) : GoResult FormOut :=
  match dest with
  | .ptrUrlValues => .ok (.raw values)
  | .urlValues => .ok (.mergedAll values)
  | .ptrMapString =>
    match firstsOf values with
    | .ok m => .ok (.firstsNew m)
    | .err e => .err e
    | .panicked msg => .panicked msg
  | .ptrMapAny =>
    match firstsOf values with
    | .ok m => .ok (.firstsNew m)
    | .err e => .err e
    | .panicked msg => .panicked msg
  | .mapString =>
    match firstsOf values with
    | .ok m => .ok (.firstsMerged m)
    | .err e => .err e
    | .panicked msg => .panicked msg
  | .mapAny =>
    match firstsOf values with
    | .ok m => .ok (.firstsMerged m)
    | .err e => .err e
    | .panicked msg => .panicked msg
  | .other => .err .notSupport

/-- The destination shapes distinguished by `decode` (part_002 lines
112-152): a nil destination, a non-pointer destination of any type, and
the pointer destinations it special-cases.  `ptrOther` is any other
pointer destination (for example a struct pointer for JSON or XML). -/
inductive DecodeDest where
  | nilDest
  | nonPtr
  | ptrString
  | ptrBytes
  | ptrUrlValues
  | ptrMapString
  | ptrMapAny
  | ptrOther
deriving DecidableEq, Repr

/-- The `parseUrlValue` destination shape corresponding to a pointer
destination of `decode` that reaches the form branch. -/
def DecodeDest.toFormDest : DecodeDest → FormDest
  | .ptrUrlValues => .ptrUrlValues
  | .ptrMapString => .ptrMapString
  | .ptrMapAny => .ptrMapAny
  | _ => .other

/-- What `decode` wrote into the destination: the raw body for string and
byte sinks, a structured unmarshal under a codec, or a form adaptation.
For `jsonVal` and `xmlVal` the standard-library unmarshal itself is
abstracted (not repository code): the constructor records which codec ran
and on which bytes. -/
inductive Decoded where
  | rawStr (s : String)
  | rawBytes (s : String)
  | jsonVal (data : String)
  | xmlVal (data : String)
  | formVal (out : FormOut)
deriving DecidableEq, Repr

/-- `decode` (part_002 lines 112-152): nil destination is a no-op; empty
data is `ErrNoData`; a non-pointer destination is `ErrInvalidType`; string
and byte sinks take the raw body; otherwise the content type dispatches to
JSON or XML unmarshal or to `url.ParseQuery` plus `parseUrlValue`; any
other content type is `ErrNotSupport`. -/
def decode (contentType : String) (data : String) (dest : DecodeDest) : GoResult (Option Decoded) :=
  match dest with
  | .nilDest => .ok none
  | _ =>
    if data.length = 0 then .err .noData
    else
      match dest with
      | .nonPtr => .err .invalidType
      | .ptrString => .ok (some (.rawStr data))
      | .ptrBytes => .ok (some (.rawBytes data))
      | _ =>
        if contentType = TypeJSON then .ok (some (.jsonVal data))
        else if contentType = TypeXML then .ok (some (.xmlVal data))
        else if contentType = TypeForm then
          match parseQuery data with
          | .ok values =>
            match parseUrlValue values dest.toFormDest with
            | .ok out => .ok (some (.formVal out))
            | .err e => .err e
            | .panicked msg => .panicked msg
          | .err e => .err e
          | .panicked msg => .panicked msg
        else .err .notSupport

/-- The `..` path segment. -/
def dotDotSeg : List Char := ['.', '.']

/-- One step of the segment processing of Go `path.Clean` (standard
library, not repository code), on a reversed stack of kept segments:
`..` pops a previous segment, is dropped at the root of a rooted path,
and is kept at the head of a relative path; any other segment is pushed. -/
def cleanPush (rooted : Bool) (stack : List (List Char)) (seg : List Char) : List (List Char) :=
  if seg = dotDotSeg then
    match stack with
    | [] => if rooted then [] else [dotDotSeg]
    | top :: rest => if top = dotDotSeg then seg :: stack else rest
  else seg :: stack

/-- Go `path.Clean` on character lists (standard library, not repository
code): collapse repeated slashes, drop `.` elements, resolve `..`
elements, keep the rooted slash, and return `.` for an empty result. -/
def goPathCleanList (p : List Char) : List Char :=
  if p = [] then ['.']
  else
    let rooted := charListHasPre ['/'] p
    let segs := (splitOnChar '/' p).filter (fun s => ¬(s = [] ∨ s = ['.']))
    let out := (segs.foldl (cleanPush rooted) []).reverse
    let s := joinChars ['/'] out
    if rooted then (if s = [] then ['/'] else '/' :: s)
    else (if s = [] then ['.'] else s)

/-- Go `path.Clean` on strings. -/
def goPathClean (p : String) : String :=
  ⟨goPathCleanList p.data⟩

/-- Go `path.Join` on two elements (standard library, not repository
code): drop empty elements, join the rest with `/`, and clean the result;
two empty elements join to the empty string. -/
def goPathJoin (a b : String) : String :=
  if a = "" ∧ b = "" then ""
  else if a = "" then goPathClean b
  else if b = "" then ⟨goPathCleanList (a.data ++ ['/'])⟩
  else ⟨goPathCleanList (a.data ++ '/' :: b.data)⟩

/-- The `Client` fields read by `DoRequest` (part_001 lines 43-47); the
underlying `http.Client` is the transport environment below. -/
structure ClientM where
  baseURL : String
  hooks : Hooks

/-- The `Options` fields read by `DoRequest` (options.go lines 76-92).
The retry budget is a `Nat`: the spec fixes it to an integer greater than
or equal to zero.  `backoff` is the policy instance; `datas` the extension
data passed through to hooks. -/
structure OptionsM where
  baseURL : String
  timeout : Duration
  retry : Nat
  backoff : BackoffM
  contentType : String
  hooks : Hooks
  datas : List (String × String)

/-- The URL resolution of `DoRequest` (part_001 lines 62-69).  Note that
the branch guarded by `c.baseURL != ""` joins `o.BaseURL` — the per-call
base URL, empty in that branch — exactly as the source does on line 67. -/
def buildURL (c : ClientM) (o : OptionsM) (url : String) : String :=
  if ¬ strStartsWith url "http" then
    if o.baseURL ≠ "" then goPathJoin o.baseURL url
    else if c.baseURL ≠ "" then goPathJoin o.baseURL url
    else url
  else url

/-- The environment one logical call runs against: `send i` is the outcome
of `c.client.Do(req)` on attempt `i` (a response, or an error), and
`ctxDoneDuringWait` says whether the context governing the request ever
becomes done while the engine sits in the retry wait: `some (k, e)` means
the `Done` channel fires after `k` completed timer waits and `ctx.Err()`
is then `e`; `none` means the context never becomes done. -/
structure TransportEnv where
  send : Nat → Except GError Response
  ctxDoneDuringWait : Option (Nat × GError)

/-- How the retry wait of `DoRequest` (part_001 lines 141-149) can end:
with the context error after some completed timer suspensions, with
control passing to the next attempt after some suspensions, or never. -/
inductive WaitOutcome where
  | ctxDone (suspensions : Nat) (e : GError)
  | next (suspensions : Nat)
  | forever
deriving DecidableEq, Repr

/-- The retry wait of `DoRequest` (part_001 lines 142-149):

`for` over `select` on `req.Context().Done()` (returning
`req.Context().Err()`) versus `time.After(wait)` followed by `break`.

In Go, `break` inside a `select` terminates the `select`, not the
enclosing `for`; the loop therefore starts a fresh timer and selects
again.  Its only exit is the `Done` branch: each iteration before the
context is done completes one timer suspension, and once the context is
done the next iteration returns the context error.  When the context
never becomes done the loop never exits, so `WaitOutcome.next` — the
outcome the loop would need for control to reach the next attempt — is
never produced. -/
def retryWaitLoop (ctxDone : Option (Nat × GError)) : WaitOutcome :=
  match ctxDone with
  | some (k, e) => .ctxDone k e
  | none => .forever

/-- How one logical call ends: a returned response (with what was decoded
into the caller destination), a returned error, a runtime panic, or no
return at all (the engine loops forever in the retry wait). -/
inductive Outcome where
  | success (rsp : Response) (dec : Option Decoded)
  | failure (e : GError)
  | panicked (msg : String)
  | hung
deriving DecidableEq, Repr

/-- Observable summary of one logical call: the outcome, the number of
transport dispatches performed (`c.client.Do` calls), the number of
completed timer suspensions before the call ended (when the outcome is
`hung` the wait loop keeps suspending forever after these), the durations
obtained from `Backoff.Next`, and the event values passed to the hook
pipeline at each pre-send and post-send point, in order. -/
structure ExecResult where
  outcome : Outcome
  attempts : Nat
  suspensions : Nat
  waits : List Duration
  preEvents : List Event
  postEvents : List Event
deriving DecidableEq, Repr

/-- The attempt loop of `DoRequest` (part_001 lines 94-153), one recursive
step per loop iteration.  `ev` is the shared `Event` as left by the
previous iteration; `nc` counts the `Backoff.Next` calls made so far; `i`
is the attempt index; `gas` is `o.Retry - i`, the remaining retry budget,
so the Go guard `i < o.Retry` is `gas > 0` (the recursion is structural on
`gas`).  Per iteration: re-attach the body (invisible here — the same
bytes every attempt), derive the per-attempt context (invisible — the
context is summarized by `env.ctxDoneDuringWait`), run the pre-send hooks
on `ev.SetPrev(i)` (an error returns immediately), dispatch, run the
post-send hooks on the post event (an error returns immediately), then
classify: a non-200 status returns a `StatusErr`; a 200 status decodes —
resolving the content type from the response header against the
configured one, reading the body and replacing `rsp.Body` with the
request body bytes `body`, exactly as line 132 does — and returns; a
timeout error with budget remaining obtains `Backoff.Next` and enters the
retry wait; any other error, or a timeout without budget, returns the
error. -/
def doRequestLoop (o : OptionsM) (env : TransportEnv) (dest : DecodeDest)
    (body : Option String) (hooks : Hooks) (ev : Event) (nc i gas : Nat) : ExecResult :=
  let evPre := ev.SetPrev i
  match Hooks.Run hooks evPre with
  | some e => ⟨.failure e, 0, 0, [], [evPre], []⟩
  | none =>
    let sendRes := env.send i
    let evPost :=
      match sendRes with
      | .ok rsp => evPre.SetPost (some rsp) none
      | .error e => evPre.SetPost none (some e)
    match Hooks.Run hooks evPost with
    | some e => ⟨.failure e, 1, 0, [], [evPre], [evPost]⟩
    | none =>
      match sendRes with
      | .ok rsp =>
        if rsp.statusCode ≠ StatusOK then
          ⟨.failure (.statusErr rsp.statusCode rsp.status), 1, 0, [], [evPre], [evPost]⟩
        else
          match dest with
          | .nilDest => ⟨.success rsp none, 1, 0, [], [evPre], [evPost]⟩
          | _ =>
            let ct := resolveContentType o.contentType rsp.contentTypeHeader
            let rsp1 := { rsp with body := body.getD "" }
            match decode ct rsp.body dest with
            | .err e => ⟨.failure e, 1, 0, [], [evPre], [evPost]⟩
            | .panicked m => ⟨.panicked m, 1, 0, [], [evPre], [evPost]⟩
            | .ok dec => ⟨.success rsp1 dec, 1, 0, [], [evPre], [evPost]⟩
      | .error e =>
        if isTimeoutErr e then
          match gas with
          | g + 1 =>
            let wait := o.backoff.next nc
            match retryWaitLoop env.ctxDoneDuringWait with
            | .ctxDone k ce => ⟨.failure ce, 1, k, [wait], [evPre], [evPost]⟩
            | .forever => ⟨.hung, 1, 0, [wait], [evPre], [evPost]⟩
            | .next k =>
              let r := doRequestLoop o env dest body hooks evPost (nc + 1) (i + 1) g
              ⟨r.outcome, r.attempts + 1, r.suspensions + k, wait :: r.waits,
                evPre :: r.preEvents, evPost :: r.postEvents⟩
          | 0 => ⟨.failure e, 1, 0, [], [evPre], [evPost]⟩
        else ⟨.failure e, 1, 0, [], [evPre], [evPost]⟩

/-- `DoRequest` (part_001 lines 58-154): build the final URL, encode the
body once (an error returns with no attempt made), construct the request
and the shared `Event` (its zero value has `Type = EventPrev`, no
response, no error, `Num = 0`), concatenate the per-call hooks with the
client hooks — in that order, `append(o.Hooks, c.hooks...)` — and run the
attempt loop from attempt 0 with the full retry budget.  Header, query
and cookie attachment mutate only request fields no claim observes. -/
def doRequest (c : ClientM) (o : OptionsM) (env : TransportEnv) (method url : String)
    (reqBody : Option GoVal) (dest : DecodeDest) : ExecResult :=
  let finalURL := buildURL c o url
  match encode o.contentType reqBody with
  | .err e => ⟨.failure e, 0, 0, [], [], []⟩
  | .panicked m => ⟨.panicked m, 0, 0, [], [], []⟩
  | .ok body =>
    let ev : Event :=
      { typ := .prev, req := ⟨method, finalURL⟩, rsp := none, err := none
        num := 0, datas := o.datas }
    let hooks := o.hooks ++ c.hooks
    doRequestLoop o env dest body hooks ev 0 0 o.retry

/-! Helper lemmas. -/

/-- A character that does not occur in a list has no last index in it. -/
theorem lastIndexByte_eq_none {c : Char} :
    ∀ {s : List Char}, c ∉ s → lastIndexByte s c = none
  | [], _ => rfl
  | x :: xs, h => by
    have hx : ¬x = c := fun he => h (he ▸ List.mem_cons_self x xs)
    have ht : c ∉ xs := fun hm => h (List.mem_cons_of_mem x hm)
    simp [lastIndexByte, lastIndexByte_eq_none ht, hx]

/-- The last index of `c` in `a ++ c :: t` is `a.length` when `c` does not
occur in `t`. -/
theorem lastIndexByte_append {c : Char} (t : List Char) (ht : c ∉ t) :
    ∀ (a : List Char), lastIndexByte (a ++ c :: t) c = some a.length
  | [] => by simp [lastIndexByte, lastIndexByte_eq_none ht]
  | x :: xs => by
    simp [lastIndexByte, lastIndexByte_append t ht xs]

/-- When every key has at least one value, the first-value projection of
`parseUrlValue` succeeds and keeps exactly the head value of each key. -/
theorem firstsOf_eq_of_nonempty :
    ∀ (values : UrlValues), (∀ p ∈ values, p.2 ≠ []) →
      firstsOf values = .ok (values.map (fun p => (p.1, p.2.headI)))
  | [], _ => rfl
  | (k, vs) :: rest, h => by
    cases vs with
    | nil => exact absurd rfl (h (k, []) (List.mem_cons_self _ _))
    | cons v0 vtail =>
      have ih := firstsOf_eq_of_nonempty rest (fun q hq => h q (List.mem_cons_of_mem _ hq))
      simp [firstsOf, ih, List.headI]

/-- In the first-value map, a key present with value list `v0 :: vrest`
looks up to `v0` when the keys are distinct. -/
theorem lookup_headI_of_mem :
    ∀ (values : UrlValues) (k v0 : String) (vrest : List String),
      (k, v0 :: vrest) ∈ values → (values.map Prod.fst).Nodup →
      (values.map (fun p => (p.1, p.2.headI))).lookup k = some v0 := by
  intro values
  induction values with
  | nil => intro k v0 vrest hk; exact absurd hk (List.not_mem_nil _)
  | cons p rest ih =>
    intro k v0 vrest hk hnd
    obtain ⟨k1, vs1⟩ := p
    rcases List.mem_cons.mp hk with heq | hmem
    · obtain ⟨hk1, hv1⟩ := Prod.mk.injEq .. ▸ heq
      simp only [List.map_cons, List.lookup]
      rw [← hk1, ← hv1]
      simp [List.headI]
    · rw [List.map_cons] at hnd
      have hnd1 := List.nodup_cons.mp hnd
      have hkin : k ∈ rest.map Prod.fst :=
        List.mem_map.mpr ⟨(k, v0 :: vrest), hmem, rfl⟩
      have hne : ¬(k == k1) = true := by
        intro hb
        exact hnd1.1 ((eq_of_beq hb) ▸ hkin)
      simp only [List.map_cons, List.lookup, hne]
      exact ih k v0 vrest hmem hnd1.2

/-- Running a concatenated hook list: an error in the front list
short-circuits the back list. -/
theorem hooksRun_append_of_err :
    ∀ (hs1 hs2 : Hooks) (ev : Event) (e : GError),
      Hooks.Run hs1 ev = some e → Hooks.Run (hs1 ++ hs2) ev = some e := by
  intro hs1
  induction hs1 with
  | nil => intro hs2 ev e h; exact absurd h (by simp [Hooks.Run])
  | cons h rest ih =>
    intro hs2 ev e hrun
    cases hh : h ev with
    | some e1 =>
      simp only [Hooks.Run, hh] at hrun ⊢
      exact hrun
    | none =>
      simp only [List.cons_append, Hooks.Run, hh] at hrun ⊢
      exact ih hs2 ev e hrun

/-- Running a concatenated hook list: when the front list raises no error,
the back list runs next. -/
theorem hooksRun_append_of_ok :
    ∀ (hs1 hs2 : Hooks) (ev : Event),
      Hooks.Run hs1 ev = none → Hooks.Run (hs1 ++ hs2) ev = Hooks.Run hs2 ev := by
  intro hs1
  induction hs1 with
  | nil => intro hs2 ev _; rfl
  | cons h rest ih =>
    intro hs2 ev hrun
    cases hh : h ev with
    | some e1 => simp [Hooks.Run, hh] at hrun
    | none =>
      simp only [List.cons_append, Hooks.Run, hh] at hrun ⊢
      exact ih hs2 ev hrun

/-! Claim theorems. -/

/-- C3, counterexample: the claim says the response `Content-Type` header
is truncated at its first semicolon (all parameters stripped).  On the
header `text/plain;a=b;c=d` the first-semicolon truncation is
`text/plain`, but the code (`strings.LastIndexByte`) keeps everything up
to the last semicolon, producing `text/plain;a=b`. -/
theorem contentType_first_semicolon_cex :
    resolveContentType TypeJSON "text/plain;a=b;c=d" = "text/plain;a=b"
    ∧ resolveContentType TypeJSON "text/plain;a=b;c=d" ≠ "text/plain" := by
  constructor
  · decide
  · decide

/-- C3, amended: when the response carries a `Content-Type` header, the
content type used for decoding is that header value truncated at its last
semicolon (only the final parameter stripped); otherwise the content type
configured for the request is used.  A header with a single parameter −
such as `application/xml;charset=utf-8` on a JSON-configured request −
therefore still decodes as XML. -/
theorem contentType_resolution_last_semicolon :
    (∀ cfg : String, resolveContentType cfg "" = cfg)
    ∧ (∀ (cfg hv : String), hv.length ≠ 0 → resolveContentType cfg hv = parseContentType hv)
    ∧ (∀ s : String, ';' ∉ s.data → parseContentType s = s)
    ∧ (∀ (a t : List Char), ';' ∉ t → parseContentTypeList (a ++ ';' :: t) = a)
    ∧ resolveContentType TypeJSON "application/xml;charset=utf-8" = TypeXML := by
  refine ⟨fun cfg => rfl, fun cfg hv hlen => ?_, fun s hs => ?_, fun a t ht => ?_, by decide⟩
  · simp [resolveContentType, hlen]
  · cases s with
    | mk d =>
      show String.mk (parseContentTypeList d) = ⟨d⟩
      rw [parseContentTypeList, lastIndexByte_eq_none (by simpa using hs)]
  · rw [parseContentTypeList, lastIndexByte_append t ht a]
    exact List.take_left a (';' :: t)

/-- C3, witness for the amended theorem at concrete inputs. -/
theorem contentType_resolution_last_semicolon_witness :
    resolveContentType TypeXML "" = TypeXML
    ∧ resolveContentType TypeJSON "text/html;charset=utf-8" = parseContentType "text/html;charset=utf-8"
    ∧ parseContentType "text/html" = "text/html"
    ∧ parseContentTypeList (['a', 'b'] ++ ';' :: ['c']) = ['a', 'b'] :=
  ⟨contentType_resolution_last_semicolon.1 TypeXML,
    contentType_resolution_last_semicolon.2.1 TypeJSON "text/html;charset=utf-8" (by decide),
    contentType_resolution_last_semicolon.2.2.1 "text/html" (by decide),
    contentType_resolution_last_semicolon.2.2.2.1 ['a', 'b'] ['c'] (by decide)⟩

/-- C4: for a relative URL, a configured per-call base URL is joined with
the path (`path.Join` semantics), and an `http`-prefixed URL is used
unchanged — but when only the client-level base URL is configured, the
code joins the empty per-call `o.BaseURL` instead of `c.baseURL` (part_001
line 67), so the client base URL is silently ignored: with client base
`http://a.com` and call URL `users` the request targets `users`, not the
join of the two. -/
theorem baseURL_resolution (c : ClientM) (o : OptionsM) (url : String) :
    (o.baseURL ≠ "" → strStartsWith url "http" = false →
      buildURL c o url = goPathJoin o.baseURL url)
    ∧ (strStartsWith url "http" = true → buildURL c o url = url)
    ∧ (buildURL ⟨"http://a.com", []⟩ ⟨"", 0, 0, ⟨fun _ => 0⟩, TypeJSON, [], []⟩ "users" = "users"
      ∧ goPathJoin "http://a.com" "users" = "http:/a.com/users"
      ∧ ("users" : String) ≠ "http:/a.com/users") := by
  refine ⟨fun h1 h2 => ?_, fun h => ?_, by decide, by decide, by decide⟩
  · simp [buildURL, h1, h2]
  · simp [buildURL, h]

/-- C4, witness at concrete inputs. -/
theorem baseURL_resolution_witness :
    buildURL ⟨"", []⟩ ⟨"http://b.com", 0, 0, ⟨fun _ => 0⟩, TypeJSON, [], []⟩ "users"
      = goPathJoin "http://b.com" "users"
    ∧ buildURL ⟨"", []⟩ ⟨"", 0, 0, ⟨fun _ => 0⟩, TypeJSON, [], []⟩ "http://c.com/x"
      = "http://c.com/x" :=
  ⟨(baseURL_resolution ⟨"", []⟩ ⟨"http://b.com", 0, 0, ⟨fun _ => 0⟩, TypeJSON, [], []⟩
      "users").1 (by decide) (by decide),
    (baseURL_resolution ⟨"", []⟩ ⟨"", 0, 0, ⟨fun _ => 0⟩, TypeJSON, [], []⟩
      "http://c.com/x").2.1 (by decide)⟩

/-- C7: the claim says a form-urlencoded encode of a string-to-any mapping
with scalar or slice values terminates normally with the flattened pairs.
In the code the slice branch calls `reflect.Value.Field` on a slice value
(part_002 line 99, `Index` was intended), which panics for any non-empty
slice; and a string value has `reflect.Kind` 24, above `Float64` (14), so
it is rejected with `ErrNotSupport` instead of being stringified.  Only
numeric and boolean scalars encode as claimed (third conjunct). -/
theorem form_encode_slice_panics :
    encode TypeForm (some (.vMapAny [("ids", .vSlice [.vInt 1, .vInt 2])]))
      = .panicked reflectFieldPanicMsg
    ∧ encode TypeForm (some (.vMapAny [("name", .vStr "bob")])) = .err .notSupport
    ∧ encode TypeForm (some (.vMapAny [("n", .vInt 3), ("b", .vBool true)]))
      = .ok (some "b=true&n=3") := by
  refine ⟨by decide, by decide, by decide⟩

/-- C8: on a successful decoded call the engine replaces the response body
with the *request* body bytes (part_001 line 132 buffers `body`, the
encoded request payload, not `rspBody`): sending `REQ` and receiving
`RESPONSE` with status 200 decodes the response bytes `RESPONSE` into the
destination but hands back a response whose body is `REQ`. -/
theorem response_body_restored_from_request_bytes :
    (doRequest ⟨"", []⟩ ⟨"", 0, 0, ⟨fun _ => 0⟩, TypeJSON, [], []⟩
        ⟨fun _ => .ok ⟨200, "200 OK", "application/json", "RESPONSE"⟩, none⟩
        "POST" "http://h/x" (some (.vStr "REQ")) .ptrString).outcome
      = .success ⟨200, "200 OK", "application/json", "REQ"⟩ (some (.rawStr "RESPONSE"))
    ∧ ("REQ" : String) ≠ "RESPONSE" := by
  refine ⟨by decide, by decide⟩

/-- C9: decoding a form-urlencoded body into a single-value map
destination (string-valued or dynamic) keeps exactly the first value of
every repeated key and drops the later ones, while the raw
key-to-values destination receives all values of every key. -/
theorem form_decode_first_value_wins
    (values : UrlValues)
    (hne : ∀ p ∈ values, p.2 ≠ [])
    (hnd : (values.map Prod.fst).Nodup)
    (k v0 : String) (vrest : List String)
    (hk : (k, v0 :: vrest) ∈ values) :
    (∃ m, parseUrlValue values .ptrMapString = .ok (.firstsNew m)
      ∧ parseUrlValue values .ptrMapAny = .ok (.firstsNew m)
      ∧ m.lookup k = some v0)
    ∧ parseUrlValue values .ptrUrlValues = .ok (.raw values) := by
  refine ⟨⟨values.map (fun p => (p.1, p.2.headI)), ?_, ?_, ?_⟩, rfl⟩
  · simp [parseUrlValue, firstsOf_eq_of_nonempty values hne]
  · simp [parseUrlValue, firstsOf_eq_of_nonempty values hne]
  · exact lookup_headI_of_mem values k v0 vrest hk hnd

/-- C9, witness: the parsed form `a=1&a=2` (values `["1", "2"]` for key
`a`) decodes to `1` in a single-value map and to both values raw. -/
theorem form_decode_first_value_wins_witness :
    (∃ m, parseUrlValue [("a", ["1", "2"])] .ptrMapString = .ok (.firstsNew m)
      ∧ parseUrlValue [("a", ["1", "2"])] .ptrMapAny = .ok (.firstsNew m)
      ∧ m.lookup "a" = some "1")
    ∧ parseUrlValue [("a", ["1", "2"])] .ptrUrlValues = .ok (.raw [("a", ["1", "2"])]) :=
  form_decode_first_value_wins [("a", ["1", "2"])] (by decide) (by decide)
    "a" "1" ["2"] (by decide)

/-- C2: a non-timeout transport error on an attempt is returned after that
attempt with no further attempt, whatever the remaining budget (`gas`);
and a transport success with a status other than 200 returns, after
exactly that one attempt and again whatever the remaining budget, the
structured status error carrying the numeric code and the status text. -/
theorem non_timeout_failures_never_retried :
    (∀ (o : OptionsM) (env : TransportEnv) (dest : DecodeDest) (body : Option String)
        (hooks : Hooks) (ev : Event) (nc i gas : Nat) (e : GError),
      Hooks.Run hooks (ev.SetPrev i) = none →
      env.send i = .error e →
      Hooks.Run hooks ((ev.SetPrev i).SetPost none (some e)) = none →
      isTimeoutErr e = false →
      doRequestLoop o env dest body hooks ev nc i gas
        = ⟨.failure e, 1, 0, [], [ev.SetPrev i], [(ev.SetPrev i).SetPost none (some e)]⟩)
    ∧ (∀ (o : OptionsM) (env : TransportEnv) (dest : DecodeDest) (body : Option String)
        (hooks : Hooks) (ev : Event) (nc i gas : Nat) (rsp : Response),
      Hooks.Run hooks (ev.SetPrev i) = none →
      env.send i = .ok rsp →
      Hooks.Run hooks ((ev.SetPrev i).SetPost (some rsp) none) = none →
      rsp.statusCode ≠ StatusOK →
      doRequestLoop o env dest body hooks ev nc i gas
        = ⟨.failure (.statusErr rsp.statusCode rsp.status), 1, 0, [],
            [ev.SetPrev i], [(ev.SetPrev i).SetPost (some rsp) none]⟩
      ∧ IsStatusErr (.statusErr rsp.statusCode rsp.status) = true) := by
  constructor
  · intro o env dest body hooks ev nc i gas e h1 h2 h3 h4
    cases gas <;> simp [doRequestLoop, h1, h2, h3, h4]
  · intro o env dest body hooks ev nc i gas rsp h1 h2 h3 h4
    refine ⟨?_, rfl⟩
    simp [doRequestLoop, h1, h2, h3, h4]

/-- C2, witness: a connection-refused error at remaining budget 3 returns
after one attempt; a 404 at remaining budget 9 returns the status error
after one attempt. -/
theorem non_timeout_failures_never_retried_witness :
    doRequestLoop ⟨"", 0, 3, ⟨fun _ => 0⟩, TypeJSON, [], []⟩
        ⟨fun _ => .error (.netErr "connection refused" false), none⟩ .nilDest none []
        ⟨.prev, ⟨"GET", "u"⟩, none, none, 0, []⟩ 0 0 3
      = ⟨.failure (.netErr "connection refused" false), 1, 0, [],
          [Event.SetPrev ⟨.prev, ⟨"GET", "u"⟩, none, none, 0, []⟩ 0],
          [Event.SetPost (Event.SetPrev ⟨.prev, ⟨"GET", "u"⟩, none, none, 0, []⟩ 0) none
            (some (.netErr "connection refused" false))]⟩
    ∧ (doRequestLoop ⟨"", 0, 9, ⟨fun _ => 0⟩, TypeJSON, [], []⟩
        ⟨fun _ => .ok ⟨404, "404 Not Found", "", "nope"⟩, none⟩ .nilDest none []
        ⟨.prev, ⟨"GET", "u"⟩, none, none, 0, []⟩ 0 0 9
      = ⟨.failure (.statusErr 404 "404 Not Found"), 1, 0, [],
          [Event.SetPrev ⟨.prev, ⟨"GET", "u"⟩, none, none, 0, []⟩ 0],
          [Event.SetPost (Event.SetPrev ⟨.prev, ⟨"GET", "u"⟩, none, none, 0, []⟩ 0)
            (some ⟨404, "404 Not Found", "", "nope"⟩) none]⟩
      ∧ IsStatusErr (.statusErr 404 "404 Not Found") = true) :=
  ⟨non_timeout_failures_never_retried.1
      ⟨"", 0, 3, ⟨fun _ => 0⟩, TypeJSON, [], []⟩
      ⟨fun _ => .error (.netErr "connection refused" false), none⟩ .nilDest none []
      ⟨.prev, ⟨"GET", "u"⟩, none, none, 0, []⟩ 0 0 3 (.netErr "connection refused" false)
      rfl rfl rfl rfl,
    non_timeout_failures_never_retried.2
      ⟨"", 0, 9, ⟨fun _ => 0⟩, TypeJSON, [], []⟩
      ⟨fun _ => .ok ⟨404, "404 Not Found", "", "nope"⟩, none⟩ .nilDest none []
      ⟨.prev, ⟨"GET", "u"⟩, none, none, 0, []⟩ 0 0 9 ⟨404, "404 Not Found", "", "nope"⟩
      rfl rfl rfl (by decide)⟩

/-- C5: the pipeline run at both the pre-send and post-send points of
every attempt is the concatenation of call-level hooks followed by
client-level hooks (visible in the `doRequest` conjunct below); the list
runs in order — an error in the front part short-circuits the back part,
and the first erroring hook stops the rest — and a hook error makes the
engine return that error immediately: a pre-send hook error returns with
no dispatch, and a post-send hook error returns even when the transport
succeeded, with no retry in either case, whatever the remaining budget. -/
theorem hook_pipeline_order_and_abort :
    (∀ (hs1 hs2 : Hooks) (ev : Event) (e : GError),
      Hooks.Run hs1 ev = some e → Hooks.Run (hs1 ++ hs2) ev = some e)
    ∧ (∀ (hs1 hs2 : Hooks) (ev : Event),
      Hooks.Run hs1 ev = none → Hooks.Run (hs1 ++ hs2) ev = Hooks.Run hs2 ev)
    ∧ (∀ (h : Hook) (rest : Hooks) (ev : Event) (e : GError),
      h ev = some e → Hooks.Run (h :: rest) ev = some e)
    ∧ (∀ (o : OptionsM) (env : TransportEnv) (dest : DecodeDest) (body : Option String)
        (hooks : Hooks) (ev : Event) (nc i gas : Nat) (e : GError),
      Hooks.Run hooks (ev.SetPrev i) = some e →
      doRequestLoop o env dest body hooks ev nc i gas
        = ⟨.failure e, 0, 0, [], [ev.SetPrev i], []⟩)
    ∧ (∀ (o : OptionsM) (env : TransportEnv) (dest : DecodeDest) (body : Option String)
        (hooks : Hooks) (ev : Event) (nc i gas : Nat) (rsp : Response) (e : GError),
      Hooks.Run hooks (ev.SetPrev i) = none →
      env.send i = .ok rsp →
      Hooks.Run hooks ((ev.SetPrev i).SetPost (some rsp) none) = some e →
      doRequestLoop o env dest body hooks ev nc i gas
        = ⟨.failure e, 1, 0, [], [ev.SetPrev i], [(ev.SetPrev i).SetPost (some rsp) none]⟩)
    ∧ (∀ (c : ClientM) (o : OptionsM) (env : TransportEnv) (m u : String) (e : GError),
      Hooks.Run (o.hooks ++ c.hooks)
        (Event.SetPrev ⟨.prev, ⟨m, buildURL c o u⟩, none, none, 0, o.datas⟩ 0) = some e →
      doRequest c o env m u none .nilDest
        = ⟨.failure e, 0, 0, [],
            [Event.SetPrev ⟨.prev, ⟨m, buildURL c o u⟩, none, none, 0, o.datas⟩ 0], []⟩) := by
  refine ⟨hooksRun_append_of_err, hooksRun_append_of_ok, ?_, ?_, ?_, ?_⟩
  · intro h rest ev e hh
    simp [Hooks.Run, hh]
  · intro o env dest body hooks ev nc i gas e h1
    simp [doRequestLoop, h1]
  · intro o env dest body hooks ev nc i gas rsp e h1 h2 h3
    simp [doRequestLoop, h1, h2, h3]
  · intro c o env m u e h1
    simp [doRequest, encode, doRequestLoop, h1]

/-- C5, witness: an erroring hook at the head of the call-level list
short-circuits a client-level hook; a clean call-level list hands over to
the client-level list; a pre-send hook error returns with no dispatch at
remaining budget 2; a post-send-only hook error overrides a successful 200
response; and `doRequest` consults the concatenated call-then-client
list. -/
theorem hook_pipeline_order_and_abort_witness :
    Hooks.Run ([fun _ => some (.hookErr "boom")] ++ [fun _ => none])
        ⟨.prev, ⟨"G", "u"⟩, none, none, 0, []⟩ = some (.hookErr "boom")
    ∧ Hooks.Run ([fun _ => none] ++ [fun _ => some (.hookErr "boom")])
        ⟨.prev, ⟨"G", "u"⟩, none, none, 0, []⟩
      = Hooks.Run [fun _ => some (.hookErr "boom")] ⟨.prev, ⟨"G", "u"⟩, none, none, 0, []⟩
    ∧ Hooks.Run ((fun _ => some (.hookErr "stop")) :: [fun _ => some (.hookErr "later")])
        ⟨.prev, ⟨"G", "u"⟩, none, none, 0, []⟩ = some (.hookErr "stop")
    ∧ doRequestLoop ⟨"", 0, 2, ⟨fun _ => 0⟩, TypeJSON, [], []⟩
        ⟨fun _ => .ok ⟨200, "200 OK", "", "ok"⟩, none⟩ .nilDest none
        [fun _ => some (.hookErr "boom")] ⟨.prev, ⟨"G", "u"⟩, none, none, 0, []⟩ 0 0 2
      = ⟨.failure (.hookErr "boom"), 0, 0, [],
          [Event.SetPrev ⟨.prev, ⟨"G", "u"⟩, none, none, 0, []⟩ 0], []⟩
    ∧ doRequestLoop ⟨"", 0, 2, ⟨fun _ => 0⟩, TypeJSON, [], []⟩
        ⟨fun _ => .ok ⟨200, "200 OK", "", "ok"⟩, none⟩ .nilDest none
        [fun ev => if ev.typ = EventType.post then some (GError.hookErr "post-boom") else none]
        ⟨.prev, ⟨"G", "u"⟩, none, none, 0, []⟩ 0 0 2
      = ⟨.failure (.hookErr "post-boom"), 1, 0, [],
          [Event.SetPrev ⟨.prev, ⟨"G", "u"⟩, none, none, 0, []⟩ 0],
          [Event.SetPost (Event.SetPrev ⟨.prev, ⟨"G", "u"⟩, none, none, 0, []⟩ 0)
            (some ⟨200, "200 OK", "", "ok"⟩) none]⟩
    ∧ doRequest ⟨"", []⟩ ⟨"", 0, 0, ⟨fun _ => 0⟩, TypeJSON, [fun _ => some (.hookErr "boom")], []⟩
        ⟨fun _ => .ok ⟨200, "200 OK", "", "ok"⟩, none⟩ "GET" "u" none .nilDest
      = ⟨.failure (.hookErr "boom"), 0, 0, [],
          [Event.SetPrev
            ⟨.prev,
              ⟨"GET", buildURL ⟨"", []⟩
                ⟨"", 0, 0, ⟨fun _ => 0⟩, TypeJSON, [fun _ => some (.hookErr "boom")], []⟩ "u"⟩,
              none, none, 0, []⟩ 0], []⟩ :=
  ⟨hook_pipeline_order_and_abort.1 [fun _ => some (.hookErr "boom")] [fun _ => none]
      ⟨.prev, ⟨"G", "u"⟩, none, none, 0, []⟩ (.hookErr "boom") rfl,
    hook_pipeline_order_and_abort.2.1 [fun _ => none] [fun _ => some (.hookErr "boom")]
      ⟨.prev, ⟨"G", "u"⟩, none, none, 0, []⟩ rfl,
    hook_pipeline_order_and_abort.2.2.1 (fun _ => some (.hookErr "stop"))
      [fun _ => some (.hookErr "later")] ⟨.prev, ⟨"G", "u"⟩, none, none, 0, []⟩
      (.hookErr "stop") rfl,
    hook_pipeline_order_and_abort.2.2.2.1 ⟨"", 0, 2, ⟨fun _ => 0⟩, TypeJSON, [], []⟩
      ⟨fun _ => .ok ⟨200, "200 OK", "", "ok"⟩, none⟩ .nilDest none
      [fun _ => some (.hookErr "boom")] ⟨.prev, ⟨"G", "u"⟩, none, none, 0, []⟩ 0 0 2
      (.hookErr "boom") rfl,
    hook_pipeline_order_and_abort.2.2.2.2.1 ⟨"", 0, 2, ⟨fun _ => 0⟩, TypeJSON, [], []⟩
      ⟨fun _ => .ok ⟨200, "200 OK", "", "ok"⟩, none⟩ .nilDest none
      [fun ev => if ev.typ = EventType.post then some (GError.hookErr "post-boom") else none]
      ⟨.prev, ⟨"G", "u"⟩, none, none, 0, []⟩ 0 0 2 ⟨200, "200 OK", "", "ok"⟩
      (.hookErr "post-boom") rfl rfl rfl,
    hook_pipeline_order_and_abort.2.2.2.2.2 ⟨"", []⟩
      ⟨"", 0, 0, ⟨fun _ => 0⟩, TypeJSON, [fun _ => some (.hookErr "boom")], []⟩
      ⟨fun _ => .ok ⟨200, "200 OK", "", "ok"⟩, none⟩ "GET" "u" (.hookErr "boom") rfl⟩

/-- C6: when the transport fails with a timeout and budget remains
(`gas = g + 1`, the Go guard `i < o.Retry`), and the context governing the
request becomes done during the backoff wait, the engine returns the
context error itself, after `k` completed timer suspensions and with no
further attempt performed. -/
theorem ctx_cancellation_during_backoff_aborts
    (o : OptionsM) (env : TransportEnv) (dest : DecodeDest) (body : Option String)
    (hooks : Hooks) (ev : Event) (nc i g k : Nat) (te ce : GError)
    (h1 : Hooks.Run hooks (ev.SetPrev i) = none)
    (h2 : env.send i = .error te)
    (h3 : Hooks.Run hooks ((ev.SetPrev i).SetPost none (some te)) = none)
    (h4 : isTimeoutErr te = true)
    (h5 : env.ctxDoneDuringWait = some (k, ce)) :
    doRequestLoop o env dest body hooks ev nc i (g + 1)
      = ⟨.failure ce, 1, k, [o.backoff.next nc],
          [ev.SetPrev i], [(ev.SetPrev i).SetPost none (some te)]⟩ := by
  simp [doRequestLoop, h1, h2, h3, h4, h5, retryWaitLoop]

/-- C6, witness: budget one, timeout on attempt 0, context cancelled after
two timer suspensions of the wait: the engine returns the cancellation
error after one attempt. -/
theorem ctx_cancellation_during_backoff_aborts_witness :
    doRequestLoop ⟨"", 0, 1, ⟨fun _ => 5⟩, TypeJSON, [], []⟩
        ⟨fun _ => .error (.netErr "i/o timeout" true), some (2, .ctxErr "context canceled")⟩
        .nilDest none [] ⟨.prev, ⟨"GET", "u"⟩, none, none, 0, []⟩ 0 0 1
      = ⟨.failure (.ctxErr "context canceled"), 1, 2, [5],
          [Event.SetPrev ⟨.prev, ⟨"GET", "u"⟩, none, none, 0, []⟩ 0],
          [Event.SetPost (Event.SetPrev ⟨.prev, ⟨"GET", "u"⟩, none, none, 0, []⟩ 0) none
            (some (.netErr "i/o timeout" true))]⟩ :=
  ctx_cancellation_during_backoff_aborts _ _ _ _ _ _ 0 0 0 2 _ _ rfl rfl rfl rfl rfl

/-- C1: the claim expects R+1 attempts with one suspension per retry and
the final timeout error.  In the code the retry wait is a `for` around a
`select` whose timer branch ends in `break`, which in Go terminates the
`select`, not the `for`: the wait loop can only exit through the context
`Done` branch (third conjunct: `retryWaitLoop` never yields `next`).  With
any retry budget of at least 1, a transport that always times out and a
context that never becomes done, the call performs exactly one attempt and
then never returns. -/
theorem retry_budget_never_consumed
    (R : Nat) (hR : 1 ≤ R) (te : GError) (ht : isTimeoutErr te = true)
    (c : ClientM) (hc : c.hooks = [])
    (o : OptionsM) (ho : o.hooks = []) (hr : o.retry = R)
    (env : TransportEnv) (hs : ∀ j, env.send j = .error te)
    (hctx : env.ctxDoneDuringWait = none)
    (m u : String) :
    ((doRequest c o env m u none .nilDest).outcome = .hung
      ∧ (doRequest c o env m u none .nilDest).attempts = 1)
    ∧ (∀ (cd : Option (Nat × GError)) (k : Nat), retryWaitLoop cd ≠ .next k) := by
  constructor
  · obtain ⟨g, hg⟩ : ∃ g, R = g + 1 := ⟨R - 1, by omega⟩
    rw [hg] at hr
    constructor <;>
      simp [doRequest, encode, doRequestLoop, hc, ho, hr, hs 0, hctx, ht,
        retryWaitLoop, Hooks.Run]
  · intro cd k
    rcases cd with _ | ⟨k1, e1⟩ <;> simp [retryWaitLoop]

/-- C1, witness: budget 1, always-timeout transport, context never done:
one attempt, no return. -/
theorem retry_budget_never_consumed_witness :
    (doRequest ⟨"", []⟩ ⟨"", 0, 1, ⟨fun _ => 5⟩, TypeJSON, [], []⟩
        ⟨fun _ => .error (.netErr "i/o timeout" true), none⟩
        "GET" "http://x" none .nilDest).outcome = .hung
    ∧ (doRequest ⟨"", []⟩ ⟨"", 0, 1, ⟨fun _ => 5⟩, TypeJSON, [], []⟩
        ⟨fun _ => .error (.netErr "i/o timeout" true), none⟩
        "GET" "http://x" none .nilDest).attempts = 1 :=
  (retry_budget_never_consumed 1 (by decide) (.netErr "i/o timeout" true) rfl
    ⟨"", []⟩ rfl ⟨"", 0, 1, ⟨fun _ => 5⟩, TypeJSON, [], []⟩ rfl rfl
    ⟨fun _ => .error (.netErr "i/o timeout" true), none⟩ (fun _ => rfl) rfl
    "GET" "http://x").1

/-- C10: one `Event` value is shared across the attempts of a logical
call; `SetPrev` overwrites only the phase tag and the attempt index,
leaving request, response, error and extension data untouched (first
conjunct); the loop hands exactly `ev.SetPrev i` — the shared event as
left by the previous iteration, tagged for attempt `i` — to the pre-send
pipeline (second conjunct); hence a pre-send run on the event left by an
attempt's post-send phase observes that post-send response and error
(third conjunct). -/
theorem event_shared_and_setPrev_frame :
    (∀ (ev : Event) (n : Nat),
      (ev.SetPrev n).typ = .prev ∧ (ev.SetPrev n).num = n
      ∧ (ev.SetPrev n).req = ev.req ∧ (ev.SetPrev n).rsp = ev.rsp
      ∧ (ev.SetPrev n).err = ev.err ∧ (ev.SetPrev n).datas = ev.datas)
    ∧ (∀ (o : OptionsM) (env : TransportEnv) (dest : DecodeDest) (body : Option String)
        (hooks : Hooks) (ev : Event) (nc i gas : Nat),
      (doRequestLoop o env dest body hooks ev nc i gas).preEvents.head? = some (ev.SetPrev i))
    ∧ (∀ (ev : Event) (i : Nat) (rsp : Option Response) (err : Option GError),
      ((Event.SetPost ev rsp err).SetPrev i).rsp = rsp
      ∧ ((Event.SetPost ev rsp err).SetPrev i).err = err) := by
  refine ⟨fun ev n => ⟨rfl, rfl, rfl, rfl, rfl, rfl⟩, ?_, fun ev i rsp err => ⟨rfl, rfl⟩⟩
  intro o env dest body hooks ev nc i gas
  rw [doRequestLoop.eq_def]
  dsimp only
  cases h1 : Hooks.Run hooks (ev.SetPrev i) with
  | some e => rfl
  | none =>
    cases h2 : env.send i with
    | ok rsp =>
      dsimp only
      cases h3 : Hooks.Run hooks ((ev.SetPrev i).SetPost (some rsp) none) with
      | some e => rfl
      | none => repeat' split <;> (try simp)
    | error e =>
      dsimp only
      cases h3 : Hooks.Run hooks ((ev.SetPrev i).SetPost none (some e)) with
      | some e1 => rfl
      | none => repeat' split <;> (try simp)

end Ghttp
